import Mathlib

/-!
Shallow embedding of `dataset/dataset.py` (class `Dataset`): a pandas-like
tabular data model, the `metainfo` metadata recomputation, selection by tag,
the mutating operations, and the stepwise feature-selection loop.

External statistics oracles (StandardScaler, PowerTransformer, the OLS
p-value computation) are modelled as function parameters, exactly as the
specification treats them: interfaces whose outputs are consumed.
-/

namespace DatasetLib

/-- Column dtypes we distinguish: pandas `object` versus the numeric dtypes
(`int64`, `float64`, and `uint8` as produced by `pd.get_dummies`). -/
inductive Dtype where
  | object
  | int64
  | float64
  | uint8
deriving DecidableEq

/-- A cell value: a string or a rational number (modelling pandas scalars). -/
inductive Val where
  | str (s : String)
  | num (q : ℚ)
deriving DecidableEq

/-- Rendering of a value as a string, used for dummy-column names
(`prefix_value` in `pd.get_dummies`). -/
def Val.toStr : Val → String
  | .str s => s
  | .num q => toString q.num ++ "/" ++ toString q.den

/-- A named column: its dtype and its cells; `none` is a missing value (NA). -/
structure Column where
  name : String
  dtype : Dtype
  values : List (Option Val)
deriving DecidableEq

/-- Number of missing values in a column (`isna().sum()` for that column). -/
def Column.naCount (c : Column) : Nat :=
  c.values.countP (fun v => v.isNone)

/-- `Series.fillna(value)`: replace every NA cell by `v`. -/
def Column.fillna (c : Column) (v : Val) : Column :=
  { c with values := c.values.map (fun x => some (x.getD v)) }

/-- A data frame: a row count (`len(df)`) and an ordered list of columns. -/
structure DataFrame where
  nrows : Nat
  cols : List Column
deriving DecidableEq

/-- `list(df)` / `df.columns`: the ordered column names. -/
def DataFrame.names (df : DataFrame) : List String :=
  df.cols.map (fun c => c.name)

/-- Look up a column by name (first match, `df[name]`). -/
def DataFrame.getCol? (df : DataFrame) (n : String) : Option Column :=
  df.cols.find? (fun c => c.name = n)

/-- `df[name] = values`: replace the column when the name exists, else append. -/
def DataFrame.setCol (df : DataFrame) (c : Column) : DataFrame :=
  if df.names.contains c.name then
    { df with cols := df.cols.map (fun c0 => if c0.name = c.name then c else c0) }
  else
    { df with cols := df.cols ++ [c] }

/-- `df.drop(name, axis=1)`: remove every column with that name. -/
def DataFrame.dropCol (df : DataFrame) (n : String) : DataFrame :=
  { df with cols := df.cols.filter (fun c => c.name ≠ n) }

/-- `df[name].fillna(value, inplace=True)`: fill NAs of the named column. -/
def DataFrame.fillna (df : DataFrame) (n : String) (v : Val) : DataFrame :=
  { df with cols := df.cols.map (fun c => if c.name = n then c.fillna v else c) }

/-- `df.drop(labels)` over the default integer row index: remove the rows at
the listed positions (the result is discarded by `drop_samples`). -/
def DataFrame.dropRows (df : DataFrame) (labels : List Nat) : DataFrame :=
  { nrows := df.nrows - ((labels.dedup.filter (fun i => i < df.nrows)).length)
    cols := df.cols.map (fun c =>
      { c with values := (c.values.enum.filter (fun p => p.1 ∉ labels)).map (fun p => p.2) }) }

/-- The error outcomes of the Python code, one constructor per raise site:
`invalidSelector` is the `assert which in self.meta_tags` of `select`/`names`
(the specification's `InvalidSelector`), `preconditionError` the
`assert len(self.names('categorical')) == 0` of `stepwise_selection` (the
specification's `PreconditionError`), `assertionError` the remaining bare
asserts, and `keyError` / `indexError` / `typeError` the pandas exceptions. -/
inductive PyErr where
  | invalidSelector
  | preconditionError
  | assertionError
  | keyError
  | indexError
  | typeError
deriving DecidableEq

deriving instance DecidableEq for Except

/-- `df.loc[:, names]`: the sub-frame of the listed columns, in list order;
a missing label raises `KeyError`. -/
def DataFrame.locCols (df : DataFrame) (ns : List String) : Except PyErr DataFrame :=
  if ns.all (fun n => (df.getCol? n).isSome) then
    .ok { nrows := df.nrows, cols := ns.filterMap (fun n => df.getCol? n) }
  else
    .error PyErr.keyError

/-- A value stored in the `meta` dict: a list of column names for the seven
list-valued tags, or the target name (a string or `None`) for `'target'`. -/
inductive MetaVal where
  | names (l : List String)
  | name (s : Option String)
deriving DecidableEq

/-- The meta mapping built by `metainfo` (the `'description'` frame, used only
for printing, is omitted). -/
structure Meta where
  all : List String
  features : List String
  targetName : Option String
  categorical : List String
  categorical_na : List String
  numerical : List String
  numerical_na : List String
  complete : List String
deriving DecidableEq

/-- Placeholder for the class-level `meta = None` before `metainfo` runs. -/
def Meta.empty : Meta :=
  ⟨[], [], none, [], [], [], [], []⟩

/-- The eight recognized tags, in source order (`Dataset.meta_tags`). -/
def metaTags : List String :=
  ["all", "numerical", "categorical", "complete",
   "numerical_na", "categorical_na", "features", "target"]

/-- `self.meta[s]`: dictionary lookup on the meta mapping. -/
def Meta.lookup (m : Meta) (s : String) : Option MetaVal :=
  if s = "all" then some (.names m.all)
  else if s = "numerical" then some (.names m.numerical)
  else if s = "categorical" then some (.names m.categorical)
  else if s = "complete" then some (.names m.complete)
  else if s = "numerical_na" then some (.names m.numerical_na)
  else if s = "categorical_na" then some (.names m.categorical_na)
  else if s = "features" then some (.names m.features)
  else if s = "target" then some (.name m.targetName)
  else none

/-- A runtime argument to `select` / `names`: an explicit list of column
names, a string, or Python's `None`. -/
inductive PyArg where
  | list (l : List String)
  | str (s : String)
  | pynone
deriving DecidableEq

/-- Passing a meta value as an argument: a list stays a list, the target name
is a bare string, an unset target is `None`. -/
def MetaVal.toArg : MetaVal → PyArg
  | .names l => .list l
  | .name (some s) => .str s
  | .name none => .pynone

/-- What `select` returns: `df.loc[:, list]` is a frame, `df.loc[:, scalar]`
a single column (a pandas Series). -/
inductive SelectResult where
  | table (df : DataFrame)
  | column (c : Column)
deriving DecidableEq

/-- The dataset object: raw table `data`, working table `features` (a copy of
`data` at construction), the optional `target` column, and the cached meta. -/
structure Dataset where
  data : DataFrame
  features : DataFrame
  target : Option Column
  meta : Meta
deriving DecidableEq

/-- The meta mapping recomputed from the current state, following `metainfo`:
the classification frame `descr` is indexed by the columns of `features`, so
each derived list keeps the column order of `features`. -/
def computeMeta (data features : DataFrame) (target : Option Column) : Meta :=
  { all := data.names
    features := features.names
    targetName := target.map (fun c => c.name)
    categorical := (features.cols.filter (fun c => c.dtype = Dtype.object)).map (fun c => c.name)
    categorical_na := (features.cols.filter
      (fun c => c.dtype = Dtype.object ∧ 0 < c.naCount)).map (fun c => c.name)
    numerical := (features.cols.filter (fun c => c.dtype ≠ Dtype.object)).map (fun c => c.name)
    numerical_na := (features.cols.filter
      (fun c => c.dtype ≠ Dtype.object ∧ 0 < c.naCount)).map (fun c => c.name)
    complete := (features.cols.filter (fun c => c.naCount = 0)).map (fun c => c.name) }

/-- `Dataset.metainfo`: rebuild `self.meta` from the current state. -/
def Dataset.metainfo (ds : Dataset) : Dataset :=
  { ds with meta := computeMeta ds.data ds.features ds.target }

/-- `Dataset.__init__` from a frame: `features` is a copy of `data`, then
`metainfo` runs. -/
def Dataset.init (df : DataFrame) : Dataset :=
  Dataset.metainfo { data := df, features := df, target := none, meta := Meta.empty }

/-- The state in which the cached meta agrees with a fresh recomputation. -/
def MetaCurrent (ds : Dataset) : Prop :=
  ds.meta = computeMeta ds.data ds.features ds.target

/-- `Dataset.select`: a list argument selects those columns; a string must be
one of the eight tags (else the assert fails, the specification's
`InvalidSelector`) and selects `features.loc[:, meta[tag]]`. -/
def Dataset.select (ds : Dataset) (which : PyArg) : Except PyErr SelectResult :=
  match which with
  | .list l => (ds.features.locCols l).map SelectResult.table
  | .str s =>
    if s ∈ metaTags then
      match ds.meta.lookup s with
      | some (.names l) => (ds.features.locCols l).map SelectResult.table
      | some (.name (some t)) =>
        match ds.features.getCol? t with
        | some c => .ok (SelectResult.column c)
        | none => .error PyErr.keyError
      | some (.name none) => .error PyErr.keyError
      | none => .error PyErr.keyError
    else .error PyErr.invalidSelector
  | .pynone => .error PyErr.invalidSelector

/-- `Dataset.names`: tag-only lookup of the meta mapping; any non-tag
argument (in particular an explicit list) fails the membership assert. -/
def Dataset.names (ds : Dataset) (which : PyArg) : Except PyErr MetaVal :=
  match which with
  | .str s =>
    if s ∈ metaTags then
      match ds.meta.lookup s with
      | some v => .ok v
      | none => .error PyErr.keyError
    else .error PyErr.invalidSelector
  | _ => .error PyErr.invalidSelector

/-- `Dataset.set_target`: when the name is a `features` column, copy it into
`target` and drop it from `features`; otherwise copy it from `data`; a name in
neither raises `KeyError`; always recompute meta. -/
def Dataset.set_target (ds : Dataset) (target_name : String) : Except PyErr Dataset :=
  if target_name ∈ ds.features.names then
    match ds.features.getCol? target_name with
    | some c =>
      .ok (Dataset.metainfo
        { ds with target := some c, features := ds.features.dropCol target_name })
    | none => .error PyErr.keyError
  else
    match ds.data.getCol? target_name with
    | some c => .ok (Dataset.metainfo { ds with target := some c })
    | none => .error PyErr.keyError

/-- `features[names] = DataFrame(transformed, columns=names)`: the listed
columns get the oracle's values and a float dtype. -/
def DataFrame.assignFloat (df : DataFrame) (ns : List String)
    (oracle : Column → List (Option Val)) : DataFrame :=
  { df with cols := df.cols.map (fun c =>
      if c.name ∈ ns then { c with dtype := Dtype.float64, values := oracle c } else c) }

/-- `Dataset.scale`: assert the tag is recognized, select that view, run the
scaling oracle (`DataFrameMapper` + `StandardScaler`), write the result back
over the same columns, recompute meta. The `'target'` tag stores a scalar, so
`subset.columns` fails with an attribute error, modelled as `typeError`. -/
def Dataset.scale (ds : Dataset) (features_of_type : String)
    (oracle : Column → List (Option Val)) : Except PyErr Dataset :=
  if features_of_type ∈ metaTags then
    match ds.meta.lookup features_of_type with
    | some (.names ns) =>
      if ns.all (fun n => (ds.features.getCol? n).isSome) then
        .ok (Dataset.metainfo { ds with features := ds.features.assignFloat ns oracle })
      else .error PyErr.keyError
    | _ => .error PyErr.typeError
  else .error PyErr.assertionError

/-- `Dataset.ensure_normality`: same data flow as `scale`, with the
Yeo-Johnson `PowerTransformer` as the oracle. -/
def Dataset.ensure_normality (ds : Dataset) (features_of_type : String)
    (oracle : Column → List (Option Val)) : Except PyErr Dataset :=
  if features_of_type ∈ metaTags then
    match ds.meta.lookup features_of_type with
    | some (.names ns) =>
      if ns.all (fun n => (ds.features.getCol? n).isSome) then
        .ok (Dataset.metainfo { ds with features := ds.features.assignFloat ns oracle })
      else .error PyErr.keyError
    | _ => .error PyErr.typeError
  else .error PyErr.assertionError

/-- Distinct non-NA values of a list of cells, in order of first appearance. -/
def dedupFirst (l : List Val) : List Val :=
  l.foldl (fun acc v => if v ∈ acc then acc else acc ++ [v]) []

/-- `pd.get_dummies(column, prefix=pfx)`: one numeric 0/1 indicator column per
distinct non-NA value; an NA row gets 0 in every indicator. -/
def getDummies (pfx : String) (c : Column) : List Column :=
  (dedupFirst (c.values.filterMap id)).map (fun v =>
    { name := pfx ++ "_" ++ v.toStr
      dtype := Dtype.uint8
      values := c.values.map (fun x => some (Val.num (if x = some v then 1 else 0))) })

/-- One pass of the `onehot_encode` loop: concatenate the dummy expansion of
the named categorical column (`features[categorical_column]` may raise). -/
def onehotStep (ds : Dataset) (df : DataFrame) (c : String) : Except PyErr DataFrame :=
  match ds.features.getCol? c with
  | none => .error PyErr.keyError
  | some col => .ok { df with cols := df.cols ++ getDummies c col }

def Dataset.onehot_encode (ds : Dataset) : Except PyErr Dataset :=
  match ds.features.locCols ds.meta.numerical with
  | .error e => .error e
  | .ok base =>
    (ds.meta.categorical.foldlM (onehotStep ds) base).map
      (fun newDf => Dataset.metainfo { ds with features := newDf })

/-- `Dataset.add_column`: append the series unless its name is already in the
cached `meta['features']`; meta is recomputed only when something was added. -/
def Dataset.add_column (ds : Dataset) (serie : Column) : Dataset :=
  if serie.name ∈ ds.meta.features then ds
  else Dataset.metainfo { ds with features := ds.features.setCol serie }

/-- `Dataset.drop_columns` (after the scalar-to-list wrap): drop each listed
column whose name is in the cached `meta['features']`; dropping a name already
gone from the working table raises `KeyError`; recompute meta at the end. -/
def Dataset.drop_columns (ds : Dataset) (columns_list : List String) : Except PyErr Dataset :=
  (columns_list.foldlM (fun df c =>
      (if c ∈ ds.meta.features then
        if c ∈ df.names then .ok (df.dropCol c) else .error PyErr.keyError
      else .ok df : Except PyErr DataFrame)) ds.features).map
    (fun df => Dataset.metainfo { ds with features := df })

/-- `Dataset.keep_columns`: drop the (deduplicated) working-table columns not
listed in `to_keep`. -/
def Dataset.keep_columns (ds : Dataset) (to_keep : List String) : Except PyErr Dataset :=
  ds.drop_columns ((ds.features.names.filter (fun c => c ∉ to_keep)).dedup)

/-- `Dataset.aggregate`: row-wise reduction of the listed columns (the
`getattr` reduction is the oracle) into `new_column`; the sources must exist;
then either `drop_columns` (which recomputes meta) or a direct `metainfo`. -/
def Dataset.aggregate (ds : Dataset) (col_list : List String) (new_column : String)
    (operation : List Column → Column) (dropSources : Bool) : Except PyErr Dataset :=
  if col_list.all (fun c => c ∈ ds.features.names) then
    let sub := col_list.filterMap (fun c => ds.features.getCol? c)
    let newF := ds.features.setCol { operation sub with name := new_column }
    if dropSources then Dataset.drop_columns { ds with features := newF } col_list
    else .ok (Dataset.metainfo { ds with features := newF })
  else .error PyErr.assertionError

/-- `Dataset.drop_samples`: `self.data.drop(self.data.index[index_list])` is
computed (an out-of-range position raises `IndexError`) but its result is
discarded — neither reassigned nor `inplace` — then meta is recomputed. -/
def Dataset.drop_samples (ds : Dataset) (index_list : List Nat) : Except PyErr Dataset :=
  if index_list.all (fun i => i < ds.data.nrows) then
    let _dropped := ds.data.dropRows index_list
    .ok (Dataset.metainfo ds)
  else .error PyErr.indexError

/-- `Dataset.replace_na`: fill NAs of the named column (or each column of a
list) in the raw table `data`, in place; a name missing from `data` raises
`KeyError`; then recompute meta. -/
def Dataset.replace_na (ds : Dataset) : List String ⊕ String → Val → Except PyErr Dataset
  | .inl cols, v =>
    (cols.foldlM (fun d c =>
        (if c ∈ d.names then .ok (d.fillna c v)
         else .error PyErr.keyError : Except PyErr DataFrame)) ds.data).map
      (fun d => Dataset.metainfo { ds with data := d })
  | .inr c, v =>
    if c ∈ ds.data.names then
      .ok (Dataset.metainfo { ds with data := ds.data.fillna c v })
    else .error PyErr.keyError

/-- The mutating operations named by the specification, with their external
oracles as fields. -/
inductive MutOp where
  | setTargetOp (name : String)
  | scaleOp (tag : String) (oracle : Column → List (Option Val))
  | ensureNormalityOp (tag : String) (oracle : Column → List (Option Val))
  | onehotEncodeOp
  | addColumnOp (serie : Column)
  | dropColumnsOp (cols : List String)
  | keepColumnsOp (keep : List String)
  | aggregateOp (cols : List String) (newCol : String)
      (operation : List Column → Column) (dropSources : Bool)
  | dropSamplesOp (idx : List Nat)
  | replaceNaOp (col : List String ⊕ String) (v : Val)

/-- Run a mutating operation on a dataset. -/
def MutOp.apply : MutOp → Dataset → Except PyErr Dataset
  | .setTargetOp n, ds => ds.set_target n
  | .scaleOp t o, ds => ds.scale t o
  | .ensureNormalityOp t o, ds => ds.ensure_normality t o
  | .onehotEncodeOp, ds => ds.onehot_encode
  | .addColumnOp s, ds => .ok (ds.add_column s)
  | .dropColumnsOp l, ds => ds.drop_columns l
  | .keepColumnsOp l, ds => ds.keep_columns l
  | .aggregateOp l n op d, ds => ds.aggregate l n op d
  | .dropSamplesOp idx, ds => ds.drop_samples idx
  | .replaceNaOp c v, ds => ds.replace_na c v

/-- Exact division of two counts, as `majority_freq / len(self.features)`
evaluates it; phrased with `mkRat` (the kernel-computable constructor), which
`ratDiv_eq_div` below identifies with ordinary rational division. -/
def ratDiv (m n : Nat) : ℚ :=
  mkRat (m : Int) n

/-- `ratDiv` is ordinary division of rationals. -/
theorem ratDiv_eq_div (m n : Nat) : ratDiv m n = (m : ℚ) / (n : ℚ) := by
  rw [ratDiv, Rat.mkRat_eq_div]
  push_cast
  ring

/-- `column.value_counts().iloc[0]`: the count of the most frequent non-NA
value; `none` when every cell is NA (`iloc[0]` on an empty series raises). -/
def majorityFreq (c : Column) : Option Nat :=
  let vals := c.values.filterMap id
  if vals = [] then none
  else some ((vals.map (fun v => vals.count v)).foldl max 0)

/-- The majority-category share `majority_freq / len(self.features)` of a
named column of the working table (0 when the column is absent or all-NA). -/
def majorityRatioOf (ds : Dataset) (c : String) : ℚ :=
  match ds.features.getCol? c with
  | some col => ratDiv ((majorityFreq col).getD 0) ds.features.nrows
  | none => 0

/-- One pass of the `under_represented_features` loop over the accumulator. -/
def underRepStep (ds : Dataset) (threshold : ℚ) (acc : List String) (column : String) :
    Except PyErr (List String) :=
  match ds.features.getCol? column with
  | none => .error PyErr.keyError
  | some col =>
    match majorityFreq col with
    | none => .error PyErr.indexError
    | some m =>
      .ok (if threshold < ratDiv m ds.features.nrows then acc ++ [column] else acc)

def Dataset.under_represented_features (ds : Dataset) (threshold : ℚ) :
    Except PyErr (List String) :=
  ds.meta.categorical.foldlM (underRepStep ds threshold) []

/-!
The stepwise selector. The OLS fit is the external regression oracle: `pval r
c` is the p-value reported for the coefficient of column `c` when the target
is regressed (with intercept) on the ordered regressor list `r`.
-/

/-- `list(set(self.features.columns) - set(included))`, determinized to column
order (the choice only fixes the tie-break order, as the specification notes). -/
def excludedOf (cols inc : List String) : List String :=
  cols.filter (fun c => c ∉ inc)

/-- The forward-step p-value series: each candidate paired with its own
p-value in the fit on `included + [candidate]`. -/
def forwardPvals (pval : List String → String → ℚ) (inc exc : List String) :
    List (String × ℚ) :=
  exc.map (fun c => (c, pval (inc ++ [c]) c))

/-- `Series.idxmin`-style fold: the first pair achieving the minimum value. -/
def argminAux : List (String × ℚ) → (String × ℚ) → (String × ℚ)
  | [], best => best
  | p :: rest, best => argminAux rest (if p.2 < best.2 then p else best)

/-- `Series.idxmax`-style fold: the first pair achieving the maximum value. -/
def argmaxAux : List (String × ℚ) → (String × ℚ) → (String × ℚ)
  | [], best => best
  | p :: rest, best => argmaxAux rest (if best.2 < p.2 then p else best)

/-- The forward step: if the minimum candidate p-value is strictly below
`threshold_in`, append the first candidate achieving it; an empty candidate
series means `min()` is NaN and the comparison is false. -/
def forwardStep (pval : List String → String → ℚ) (threshold_in : ℚ)
    (cols inc : List String) : List String × Bool :=
  match forwardPvals pval inc (excludedOf cols inc) with
  | [] => (inc, false)
  | p :: rest =>
    if (argminAux rest p).2 < threshold_in then (inc ++ [(argminAux rest p).1], true)
    else (inc, false)

/-- The backward-step p-value series: `model.pvalues.iloc[1:]` of the fit on
the current `included`, i.e. every coefficient except the intercept. -/
def backwardPvals (pval : List String → String → ℚ) (inc : List String) :
    List (String × ℚ) :=
  inc.map (fun c => (c, pval inc c))

/-- The worst (maximum p-value) included feature, `none` when `included` is
empty (`max()` of an empty series is NaN). -/
def backwardWorst (pval : List String → String → ℚ) (inc : List String) :
    Option (String × ℚ) :=
  match backwardPvals pval inc with
  | [] => none
  | p :: rest => some (argmaxAux rest p)

/-- The backward step: if the worst p-value strictly exceeds `threshold_out`,
remove that feature (`included.remove`, the first occurrence). -/
def backwardStep (pval : List String → String → ℚ) (threshold_out : ℚ)
    (inc : List String) : List String × Bool :=
  match backwardWorst pval inc with
  | none => (inc, false)
  | some worst =>
    if threshold_out < worst.2 then (inc.erase worst.1, true) else (inc, false)

/-- One iteration of the `while True` body: forward then backward; `changed`
is true when either step fired. -/
def stepwiseStep (pval : List String → String → ℚ) (threshold_in threshold_out : ℚ)
    (cols inc : List String) : List String × Bool :=
  ((backwardStep pval threshold_out (forwardStep pval threshold_in cols inc).1).1,
   (forwardStep pval threshold_in cols inc).2 ||
     (backwardStep pval threshold_out (forwardStep pval threshold_in cols inc).1).2)

/-- The selection loop, fuel-indexed because the source loop need not
terminate when the thresholds are mis-ordered: `some` is a genuine return
(an iteration produced no change), `none` is exhausted fuel. -/
def stepwiseLoop (pval : List String → String → ℚ) (threshold_in threshold_out : ℚ)
    (cols : List String) : Nat → List String → Option (List String)
  | 0, _ => none
  | Nat.succ fuel, inc =>
    if (stepwiseStep pval threshold_in threshold_out cols inc).2 then
      stepwiseLoop pval threshold_in threshold_out cols fuel
        (stepwiseStep pval threshold_in threshold_out cols inc).1
    else some (stepwiseStep pval threshold_in threshold_out cols inc).1

/-- `Dataset.stepwise_selection`: default the initial list, assert that the
cached categorical view is empty (the specification's `PreconditionError`),
then run the forward-backward loop over the working-table columns. -/
def Dataset.stepwise_selection (ds : Dataset) (pval : List String → String → ℚ)
    (initial_list : Option (List String)) (threshold_in threshold_out : ℚ)
    (fuel : Nat) : Except PyErr (Option (List String)) :=
  let included := initial_list.getD []
  if ds.meta.categorical = [] then
    .ok (stepwiseLoop pval threshold_in threshold_out ds.features.names fuel included)
  else .error PyErr.preconditionError

/-!
Concrete example data, used by the witnesses below.
-/

/-- A numerical example column without missing values. -/
def exNum : Column := ⟨"a", Dtype.int64, [some (Val.num 1), some (Val.num 2)]⟩

/-- A categorical example column with one missing value. -/
def exCat : Column := ⟨"b", Dtype.object, [some (Val.str "u"), none]⟩

/-- A numerical example target column. -/
def exTgt : Column := ⟨"y", Dtype.int64, [some (Val.num 0), some (Val.num 1)]⟩

/-- The example raw table. -/
def exDF : DataFrame := ⟨2, [exNum, exCat, exTgt]⟩

/-- The example dataset as constructed. -/
def exDS : Dataset := Dataset.init exDF

/-- The example dataset after `set_target('y')`. -/
def exDSt : Dataset :=
  Dataset.metainfo
    { data := exDF, features := ⟨2, [exNum, exCat]⟩, target := some exTgt, meta := Meta.empty }

/-- A dataset whose working table is a single numerical column (so the
categorical view is empty) and whose target was never set. -/
def exDSnum : Dataset := Dataset.init ⟨2, [exNum]⟩

/-- A dataset whose working table is a single categorical column. -/
def exDScat : Dataset := Dataset.init ⟨2, [exCat]⟩

/-- A constant p-value oracle: no candidate is ever significant. -/
def pvalOne : List String → String → ℚ := fun _ _ => 1

/-!
C7 — `drop_samples` discards the dropped frame.
-/

/-- C7: for every index list (in range, so that `self.data.index[index_list]`
itself does not raise), `drop_samples` leaves both the raw table `data` and
the working table `features` unchanged: `self.data.drop(...)` is computed
without reassignment or `inplace=True`, so the whole call is exactly the
`metainfo()` recomputation on the unchanged state. -/
theorem drop_samples_is_noop (ds ds' : Dataset) (idx : List Nat)
    (h : ds.drop_samples idx = .ok ds') :
    ds'.data = ds.data ∧ ds'.features = ds.features ∧ ds' = Dataset.metainfo ds := by
  unfold Dataset.drop_samples at h
  split at h
  · injection h with h
    subst h
    exact ⟨rfl, rfl, rfl⟩
  · exact Except.noConfusion h

/-- Witness for C7 at the example dataset with index list `[0]`. -/
theorem drop_samples_is_noop_witness :
    (Dataset.metainfo exDS).data = exDS.data ∧
    (Dataset.metainfo exDS).features = exDS.features ∧
    Dataset.metainfo exDS = Dataset.metainfo exDS :=
  drop_samples_is_noop exDS (Dataset.metainfo exDS) [0] (by decide)

/-!
C9 — `replace_na` touches only `data`.
-/

/-- C9: for a column name present in the working table, `replace_na` fills
the NAs of that column in the raw table `data` only; `features` (a copy made
at construction) is untouched, so the NA-derived meta sets recomputed at the
end of the call coincide with what `metainfo()` produced before it. -/
theorem replace_na_mutates_only_data (ds ds' : Dataset) (c : String) (v : Val)
    (hc : c ∈ ds.features.names)
    (h : ds.replace_na (Sum.inr c) v = .ok ds') :
    ds'.features = ds.features ∧
    ds'.data = ds.data.fillna c v ∧
    ds'.meta.numerical_na = (Dataset.metainfo ds).meta.numerical_na ∧
    ds'.meta.categorical_na = (Dataset.metainfo ds).meta.categorical_na ∧
    ds'.meta.complete = (Dataset.metainfo ds).meta.complete := by
  simp only [Dataset.replace_na] at h
  split at h
  · injection h with h
    subst h
    exact ⟨rfl, rfl, rfl, rfl, rfl⟩
  · exact Except.noConfusion h

/-- Witness for C9: fill the NA of the categorical column `b` of the example
dataset. -/
theorem replace_na_mutates_only_data_witness :
    (Dataset.metainfo { exDS with data := exDS.data.fillna "b" (Val.str "f") }).features
        = exDS.features ∧
    (Dataset.metainfo { exDS with data := exDS.data.fillna "b" (Val.str "f") }).data
        = exDS.data.fillna "b" (Val.str "f") ∧
    (Dataset.metainfo { exDS with data := exDS.data.fillna "b" (Val.str "f") }).meta.numerical_na
        = (Dataset.metainfo exDS).meta.numerical_na ∧
    (Dataset.metainfo { exDS with data := exDS.data.fillna "b" (Val.str "f") }).meta.categorical_na
        = (Dataset.metainfo exDS).meta.categorical_na ∧
    (Dataset.metainfo { exDS with data := exDS.data.fillna "b" (Val.str "f") }).meta.complete
        = (Dataset.metainfo exDS).meta.complete :=
  replace_na_mutates_only_data exDS
    (Dataset.metainfo { exDS with data := exDS.data.fillna "b" (Val.str "f") })
    "b" (Val.str "f") (by decide) (by decide)

/-!
C3 — the `stepwise_selection` precondition.
-/

/-- C3 counterexample: a dataset with an empty categorical view and an unset
target: `stepwise_selection` raises nothing and runs the loop to a normal
return, refuting the claim that an unset target fails with a precondition
error at the call. -/
theorem stepwise_selection_no_target_check :
    exDSnum.target = none ∧
    exDSnum.stepwise_selection pvalOne none (mkRat 1 100) (mkRat 5 100) 3 = .ok (some []) := by
  exact ⟨rfl, by decide⟩

/-- C3 (amended): `stepwise_selection` fails, with the precondition error,
exactly when the cached categorical view is non-empty; the target is never
examined before entering the loop. -/
theorem stepwise_selection_precondition (ds : Dataset) (pval : List String → String → ℚ)
    (init : Option (List String)) (tin tout : ℚ) (fuel : Nat) :
    (ds.meta.categorical ≠ [] →
      ds.stepwise_selection pval init tin tout fuel = .error PyErr.preconditionError) ∧
    (ds.meta.categorical = [] →
      ds.stepwise_selection pval init tin tout fuel =
        .ok (stepwiseLoop pval tin tout ds.features.names fuel (init.getD []))) := by
  unfold Dataset.stepwise_selection
  constructor
  · intro hne
    rw [if_neg hne]
  · intro he
    rw [if_pos he]

/-- Witness for C3 (amended): the unencoded example dataset fails with the
precondition error. -/
theorem stepwise_selection_precondition_witness :
    exDScat.stepwise_selection pvalOne none (mkRat 1 100) (mkRat 5 100) 3
      = .error PyErr.preconditionError :=
  (stepwise_selection_precondition exDScat pvalOne none (mkRat 1 100) (mkRat 5 100) 3).1 (by decide)

/-!
C4 — idempotence of `stepwise_selection` on a stable result.
-/

/-- The forward step either leaves `included` unchanged reporting no change,
or appends one feature reporting a change. -/
theorem forwardStep_cases (pval : List String → String → ℚ) (tin : ℚ)
    (cols inc : List String) :
    forwardStep pval tin cols inc = (inc, false) ∨
    ∃ f, forwardStep pval tin cols inc = (inc ++ [f], true) := by
  unfold forwardStep
  split
  · exact Or.inl rfl
  · split
    · exact Or.inr ⟨_, rfl⟩
    · exact Or.inl rfl

/-- The backward step either leaves `included` unchanged reporting no change,
or erases one feature reporting a change. -/
theorem backwardStep_cases (pval : List String → String → ℚ) (tout : ℚ)
    (inc : List String) :
    backwardStep pval tout inc = (inc, false) ∨
    ∃ w, backwardStep pval tout inc = (inc.erase w, true) := by
  unfold backwardStep
  split
  · exact Or.inl rfl
  · split
    · exact Or.inr ⟨_, rfl⟩
    · exact Or.inl rfl

/-- A forward step that reports no change leaves `included` unchanged. -/
theorem forwardStep_snd_false {pval : List String → String → ℚ} {tin : ℚ}
    {cols inc : List String} (h : (forwardStep pval tin cols inc).2 = false) :
    (forwardStep pval tin cols inc).1 = inc := by
  rcases forwardStep_cases pval tin cols inc with hc | ⟨f, hc⟩
  · rw [hc]
  · rw [hc] at h
    exact absurd h (by simp)

/-- A backward step that reports no change leaves `included` unchanged. -/
theorem backwardStep_snd_false {pval : List String → String → ℚ} {tout : ℚ}
    {inc : List String} (h : (backwardStep pval tout inc).2 = false) :
    (backwardStep pval tout inc).1 = inc := by
  rcases backwardStep_cases pval tout inc with hc | ⟨w, hc⟩
  · rw [hc]
  · rw [hc] at h
    exact absurd h (by simp)

/-- An iteration that reports no change leaves `included` unchanged. -/
theorem stepwiseStep_snd_false {pval : List String → String → ℚ} {tin tout : ℚ}
    {cols inc : List String} (h : (stepwiseStep pval tin tout cols inc).2 = false) :
    (stepwiseStep pval tin tout cols inc).1 = inc := by
  unfold stepwiseStep at h ⊢
  rw [Bool.or_eq_false_iff] at h
  obtain ⟨h1, h2⟩ := h
  have e1 := forwardStep_snd_false h1
  rw [e1] at h2 ⊢
  exact backwardStep_snd_false h2

/-- A normal return of the loop is a fixed point of the iteration. -/
theorem stepwiseLoop_fixed {pval : List String → String → ℚ} {tin tout : ℚ}
    {cols : List String} :
    ∀ (fuel : Nat) (inc L : List String),
      stepwiseLoop pval tin tout cols fuel inc = some L →
      stepwiseStep pval tin tout cols L = (L, false) := by
  intro fuel
  induction fuel with
  | zero =>
    intro inc L h
    exact Option.noConfusion h
  | succ n ih =>
    intro inc L h
    unfold stepwiseLoop at h
    by_cases hb : (stepwiseStep pval tin tout cols inc).2
    · rw [if_pos hb] at h
      exact ih _ _ h
    · rw [if_neg hb] at h
      injection h with h
      have hb2 : (stepwiseStep pval tin tout cols inc).2 = false := by
        exact Bool.not_eq_true _ ▸ eq_false_of_ne_true hb
      have h1 : (stepwiseStep pval tin tout cols inc).1 = inc := stepwiseStep_snd_false hb2
      have hLinc : L = inc := h ▸ h1.symm ▸ rfl
      subst hLinc
      calc stepwiseStep pval tin tout cols L
      _ = ((stepwiseStep pval tin tout cols L).1, (stepwiseStep pval tin tout cols L).2) := rfl
      _ = (L, false) := by rw [h, hb2]

/-- Restarting the loop at a fixed point returns it at once. -/
theorem stepwiseLoop_restart {pval : List String → String → ℚ} {tin tout : ℚ}
    {cols L : List String} (fuel : Nat)
    (h : stepwiseStep pval tin tout cols L = (L, false)) :
    stepwiseLoop pval tin tout cols (fuel + 1) L = some L := by
  show (if (stepwiseStep pval tin tout cols L).2 = true then _ else _) = _
  rw [h]
  simp

/-- C4: `stepwise_selection` is idempotent on a stable result: if a run
returns `L`, a rerun on the unchanged dataset with `initial_list = L` and the
same thresholds returns exactly `L`, members and order alike. -/
theorem stepwise_selection_idempotent (ds : Dataset) (pval : List String → String → ℚ)
    (init : Option (List String)) (tin tout : ℚ) (fuel fuelB : Nat) (L : List String)
    (hio : tin < tout)
    (h : ds.stepwise_selection pval init tin tout fuel = .ok (some L)) :
    ds.stepwise_selection pval (some L) tin tout (fuelB + 1) = .ok (some L) := by
  unfold Dataset.stepwise_selection at h ⊢
  by_cases hc : ds.meta.categorical = []
  · rw [if_pos hc] at h ⊢
    injection h with h
    have hfix := stepwiseLoop_fixed fuel _ L h
    exact congrArg Except.ok (stepwiseLoop_restart fuelB hfix)
  · rw [if_neg hc] at h
    exact Except.noConfusion h

/-- Witness for C4: the stable empty result of the example numeric dataset is
returned unchanged by a rerun seeded with it. -/
theorem stepwise_selection_idempotent_witness :
    exDSnum.stepwise_selection pvalOne (some []) (mkRat 1 100) (mkRat 5 100) (0 + 1) = .ok (some []) :=
  stepwise_selection_idempotent exDSnum pvalOne none (mkRat 1 100) (mkRat 5 100) 3 0 []
    (by norm_num) (by decide)

/-!
C2 — the threshold invariant of the stepwise loop.
-/

/-- The pair selected by the `idxmin` fold is among the candidates. -/
theorem argminAux_mem (l : List (String × ℚ)) (b : String × ℚ) :
    argminAux l b ∈ b :: l := by
  induction l generalizing b with
  | nil => simp [argminAux]
  | cons p rest ih =>
    unfold argminAux
    have h := ih (if p.2 < b.2 then p else b)
    rcases List.mem_cons.mp h with h | h
    · rw [h]
      by_cases hb : p.2 < b.2
      · rw [if_pos hb]
        exact List.mem_cons_of_mem _ (List.mem_cons_self _ _)
      · rw [if_neg hb]
        exact List.mem_cons_self _ _
    · exact List.mem_cons_of_mem _ (List.mem_cons_of_mem _ h)

/-- The pair selected by the `idxmin` fold carries the minimum value. -/
theorem argminAux_le (l : List (String × ℚ)) (b : String × ℚ) :
    ∀ q ∈ b :: l, (argminAux l b).2 ≤ q.2 := by
  induction l generalizing b with
  | nil =>
    intro q hq
    rw [List.mem_singleton] at hq
    subst hq
    exact le_refl _
  | cons p rest ih =>
    intro q hq
    unfold argminAux
    have hle : (argminAux rest (if p.2 < b.2 then p else b)).2 ≤ (if p.2 < b.2 then p else b).2 :=
      ih _ _ (List.mem_cons_self _ _)
    rcases List.mem_cons.mp hq with hq | hq
    · subst hq
      refine le_trans hle ?_
      by_cases hb : p.2 < q.2
      · rw [if_pos hb]
        exact le_of_lt hb
      · rw [if_neg hb]
    · rcases List.mem_cons.mp hq with hq | hq
      · subst hq
        refine le_trans hle ?_
        by_cases hb : q.2 < b.2
        · rw [if_pos hb]
        · rw [if_neg hb]
          exact le_of_not_lt hb
      · exact ih _ _ (List.mem_cons_of_mem _ hq)

/-- The pair selected by the `idxmax` fold carries the maximum value. -/
theorem argmaxAux_ge (l : List (String × ℚ)) (b : String × ℚ) :
    ∀ q ∈ b :: l, q.2 ≤ (argmaxAux l b).2 := by
  induction l generalizing b with
  | nil =>
    intro q hq
    rw [List.mem_singleton] at hq
    subst hq
    exact le_refl _
  | cons p rest ih =>
    intro q hq
    unfold argmaxAux
    have hle : (if b.2 < p.2 then p else b).2 ≤ (argmaxAux rest (if b.2 < p.2 then p else b)).2 :=
      ih _ _ (List.mem_cons_self _ _)
    rcases List.mem_cons.mp hq with hq | hq
    · subst hq
      refine le_trans ?_ hle
      by_cases hb : q.2 < p.2
      · rw [if_pos hb]
        exact le_of_lt hb
      · rw [if_neg hb]
    · rcases List.mem_cons.mp hq with hq | hq
      · subst hq
        refine le_trans ?_ hle
        by_cases hb : b.2 < q.2
        · rw [if_pos hb]
        · rw [if_neg hb]
          exact le_of_not_lt hb
      · exact ih _ _ (List.mem_cons_of_mem _ hq)

/-- What an appended feature satisfies: it appears in the candidate p-value
series with its own p-value, that p-value beat the inclusion threshold, and
it is the minimum of the series. -/
theorem forwardStep_added (pval : List String → String → ℚ) (tin : ℚ)
    (cols inc : List String) (f : String)
    (hfnot : f ∉ inc) (hfmem : f ∈ (forwardStep pval tin cols inc).1) :
    pval (inc ++ [f]) f < tin ∧
    ∀ q ∈ forwardPvals pval inc (excludedOf cols inc), pval (inc ++ [f]) f ≤ q.2 := by
  unfold forwardStep at hfmem
  split at hfmem
  next heq => exact absurd hfmem hfnot
  next p rest heq =>
    split at hfmem
    next hlt =>
      have hf : f = (argminAux rest p).1 := by
        rcases List.mem_append.mp hfmem with h | h
        · exact absurd h hfnot
        · simpa using h
      have hmem : argminAux rest p ∈ forwardPvals pval inc (excludedOf cols inc) := by
        rw [heq]
        exact argminAux_mem rest p
      obtain ⟨c, hc, hceq⟩ := List.mem_map.mp hmem
      have h1 : (argminAux rest p).1 = c := by rw [← hceq]
      have h2 : (argminAux rest p).2 = pval (inc ++ [c]) c := by rw [← hceq]
      have hfc : f = c := hf.trans h1
      subst hfc
      rw [← h2]
      refine ⟨hlt, ?_⟩
      intro q hq
      rw [heq] at hq
      exact argminAux_le rest p q hq
    next hlt => exact absurd hfmem hfnot

/-- C2: throughout the stepwise loop (whose iteration is `forwardStep`
followed by `backwardStep`), a feature is appended by the forward step only
when its own p-value — the minimum over all excluded candidates — is strictly
below `threshold_in`, and when the worst backward p-value strictly exceeds
`threshold_out`, that feature is removed in the same iteration. -/
theorem stepwise_threshold_invariant (pval : List String → String → ℚ)
    (tin tout : ℚ) (cols inc : List String)
    (hio : tin < tout) (hnd : inc.Nodup) :
    (∀ f, f ∉ inc → f ∈ (forwardStep pval tin cols inc).1 →
        pval (inc ++ [f]) f < tin ∧
        ∀ c ∈ excludedOf cols inc, pval (inc ++ [f]) f ≤ pval (inc ++ [c]) c) ∧
    (∀ w pw, backwardWorst pval inc = some (w, pw) → tout < pw →
        w ∉ (backwardStep pval tout inc).1) := by
  constructor
  · intro f hfnot hfmem
    obtain ⟨hlt, hmin⟩ := forwardStep_added pval tin cols inc f hfnot hfmem
    refine ⟨hlt, ?_⟩
    intro c hc
    exact hmin (c, pval (inc ++ [c]) c) (List.mem_map.mpr ⟨c, hc, rfl⟩)
  · intro w pw hw htout
    unfold backwardStep
    rw [hw]
    show w ∉ (if tout < pw then (inc.erase w, true) else (inc, false)).1
    rw [if_pos htout]
    intro hmem
    rw [List.Nodup.erase_eq_filter hnd] at hmem
    have hcontra := (List.mem_filter.mp hmem).2
    simp at hcontra

/-- A p-value oracle for the witness: feature `a` is strongly significant,
all others are not. -/
def pvalW : List String → String → ℚ :=
  fun _ c => if c = "a" then mkRat 1 1000 else mkRat 1 2

/-- Witness for C2 at concrete thresholds 0.01 and 0.05, columns
`[a, b, c]` and included state `[a, b]`. -/
theorem stepwise_threshold_invariant_witness :
    (∀ f, f ∉ ["a", "b"] → f ∈ (forwardStep pvalW (mkRat 1 100) ["a", "b", "c"] ["a", "b"]).1 →
        pvalW (["a", "b"] ++ [f]) f < mkRat 1 100 ∧
        ∀ c ∈ excludedOf ["a", "b", "c"] ["a", "b"],
          pvalW (["a", "b"] ++ [f]) f ≤ pvalW (["a", "b"] ++ [c]) c) ∧
    (∀ w pw, backwardWorst pvalW ["a", "b"] = some (w, pw) → mkRat 5 100 < pw →
        w ∉ (backwardStep pvalW (mkRat 5 100) ["a", "b"]).1) :=
  stepwise_threshold_invariant pvalW (mkRat 1 100) (mkRat 5 100) ["a", "b", "c"] ["a", "b"]
    (by decide) (by decide)

/-!
C5 — `select` on an explicit list versus `select` on the tag.
-/

/-- C5 counterexample: on the example dataset with target `y`, the recognized
tag `'target'` has the bare name `"y"` as its meta entry; passing that entry
to `select` fails the tag assert (invalid selector) while `select('target')`
raises a key error instead — the two calls do not agree. -/
theorem select_list_vs_tag_counterexample :
    "target" ∈ metaTags ∧
    exDSt.meta.lookup "target" = some (MetaVal.name (some "y")) ∧
    exDSt.select (MetaVal.name (some "y")).toArg = .error PyErr.invalidSelector ∧
    exDSt.select (PyArg.str "target") = .error PyErr.keyError ∧
    exDSt.select (MetaVal.name (some "y")).toArg ≠ exDSt.select (PyArg.str "target") := by
  decide

/-- C5 (amended): for every tag whose meta entry is a list of column names
(all recognized tags except `'target'`, whose entry is a bare name), `select`
on the explicit list `meta[tag]` and `select` on the tag itself return the
same result. -/
theorem select_list_eq_select_tag (ds : Dataset) (tag : String) (l : List String)
    (h : ds.meta.lookup tag = some (MetaVal.names l)) :
    ds.select (PyArg.list l) = ds.select (PyArg.str tag) := by
  unfold Meta.lookup at h
  split_ifs at h with h1 h2 h3 h4 h5 h6 h7 h8
  · injection h with h
    injection h with h
    subst h
    subst h1
    rfl
  · injection h with h
    injection h with h
    subst h
    subst h2
    rfl
  · injection h with h
    injection h with h
    subst h
    subst h3
    rfl
  · injection h with h
    injection h with h
    subst h
    subst h4
    rfl
  · injection h with h
    injection h with h
    subst h
    subst h5
    rfl
  · injection h with h
    injection h with h
    subst h
    subst h6
    rfl
  · injection h with h
    injection h with h
    subst h
    subst h7
    rfl
  · injection h with h
    exact MetaVal.noConfusion h

/-- Witness for C5 (amended) at the tag `'numerical'` of the example dataset. -/
theorem select_list_eq_select_tag_witness :
    exDSt.select (PyArg.list ["a"]) = exDSt.select (PyArg.str "numerical") :=
  select_list_eq_select_tag exDSt "numerical" ["a"] (by decide)

/-!
C6 — the invalid-selector characterization of `select` and `names`.
-/

/-- `select` on an explicit list never reports an invalid selector. -/
theorem locCols_map_ne_invalid (df : DataFrame) (l : List String) :
    (df.locCols l).map SelectResult.table ≠ Except.error PyErr.invalidSelector := by
  unfold DataFrame.locCols
  split
  · intro h
    exact Except.noConfusion h
  · intro h
    injection h with h
    exact PyErr.noConfusion h

/-- `select` on a recognized tag never reports an invalid selector. -/
theorem select_str_tag_ne_invalid (ds : Dataset) (s : String) (hs : s ∈ metaTags) :
    ds.select (PyArg.str s) ≠ .error PyErr.invalidSelector := by
  simp only [Dataset.select]
  rw [if_pos hs]
  cases hlk : ds.meta.lookup s with
  | none => exact fun h => PyErr.noConfusion (Except.error.inj h)
  | some v =>
    cases v with
    | names l => exact locCols_map_ne_invalid ds.features l
    | name t =>
      cases t with
      | some tn =>
        show (match ds.features.getCol? tn with
          | some c => Except.ok (SelectResult.column c)
          | none => Except.error PyErr.keyError) ≠ Except.error PyErr.invalidSelector
        cases hg : ds.features.getCol? tn with
        | some c => exact fun h => Except.noConfusion h
        | none => exact fun h => PyErr.noConfusion (Except.error.inj h)
      | none => exact fun h => PyErr.noConfusion (Except.error.inj h)

/-- `names` on a recognized tag never reports an invalid selector. -/
theorem names_str_tag_ne_invalid (ds : Dataset) (s : String) (hs : s ∈ metaTags) :
    ds.names (PyArg.str s) ≠ .error PyErr.invalidSelector := by
  simp only [Dataset.names]
  rw [if_pos hs]
  cases hlk : ds.meta.lookup s with
  | none =>
    intro h
    injection h with h
    exact PyErr.noConfusion h
  | some v =>
    intro h
    exact Except.noConfusion h

/-- C6: `select` fails with the invalid-selector error exactly when its
argument is neither an explicit list nor one of the eight recognized tags;
`names` additionally rejects explicit lists (and `None`), accepting
recognized tags only. -/
theorem selector_error_characterization (ds : Dataset) :
    (∀ arg : PyArg, ds.select arg = .error PyErr.invalidSelector ↔
        ((∀ l, arg ≠ PyArg.list l) ∧ ∀ s, arg = PyArg.str s → s ∉ metaTags)) ∧
    (∀ l, ds.names (PyArg.list l) = .error PyErr.invalidSelector) ∧
    (∀ s, ds.names (PyArg.str s) = .error PyErr.invalidSelector ↔ s ∉ metaTags) ∧
    ds.names PyArg.pynone = .error PyErr.invalidSelector := by
  refine ⟨?_, ?_, ?_, rfl⟩
  · intro arg
    cases arg with
    | list l =>
      constructor
      · intro h
        exact absurd h (locCols_map_ne_invalid ds.features l)
      · rintro ⟨h1, -⟩
        exact absurd rfl (h1 l)
    | str s =>
      by_cases hs : s ∈ metaTags
      · constructor
        · intro h
          exact absurd h (select_str_tag_ne_invalid ds s hs)
        · rintro ⟨-, h2⟩
          exact absurd hs (h2 s rfl)
      · constructor
        · intro _
          refine ⟨fun l => by simp, fun s2 hs2 => ?_⟩
          injection hs2 with e
          exact e ▸ hs
        · intro _
          simp only [Dataset.select]
          rw [if_neg hs]
    | pynone =>
      constructor
      · intro _
        exact ⟨fun l => by simp, fun s2 hs2 => PyArg.noConfusion hs2⟩
      · intro _
        rfl
  · intro l
    rfl
  · intro s
    by_cases hs : s ∈ metaTags
    · constructor
      · intro h
        exact absurd h (names_str_tag_ne_invalid ds s hs)
      · intro h
        exact absurd hs h
    · constructor
      · intro _
        exact hs
      · intro _
        simp only [Dataset.names]
        rw [if_neg hs]

/-- Witness for C6: an explicit list passed to `names` is rejected. -/
theorem selector_error_characterization_witness :
    exDS.names (PyArg.list ["a"]) = .error PyErr.invalidSelector :=
  (selector_error_characterization exDS).2.1 ["a"]

/-!
C8 — `under_represented_features` returns exactly the imbalanced columns.
-/

/-- A named column of the working table with at least one observed (non-NA)
value, so that `value_counts().iloc[0]` is defined. -/
def hasObservedValue (ds : Dataset) (c : String) : Bool :=
  match ds.features.getCol? c with
  | some col => !(col.values.filterMap id).isEmpty
  | none => false

/-- `Except.ok` is left identity for bind. -/
theorem except_ok_bind {ε α β : Type} (a : α) (g : α → Except ε β) :
    ((Except.ok a : Except ε α) >>= g) = g a := rfl

/-- The `under_represented_features` fold collects exactly the listed columns
whose majority share beats the threshold, appended to the accumulator. -/
theorem underRep_fold_spec (ds : Dataset) (t : ℚ) :
    ∀ (cats acc : List String),
      (∀ c ∈ cats, hasObservedValue ds c = true) →
      cats.foldlM (underRepStep ds t) acc =
        .ok (acc ++ cats.filter (fun c => decide (t < majorityRatioOf ds c))) := by
  intro cats
  induction cats with
  | nil =>
    intro acc h
    simp only [List.foldlM_nil, List.filter_nil, List.append_nil]
    rfl
  | cons c cats ih =>
    intro acc h
    have hc := h c (List.mem_cons_self _ _)
    unfold hasObservedValue at hc
    rw [List.foldlM_cons]
    cases hg : ds.features.getCol? c with
    | none =>
      rw [hg] at hc
      exact Bool.noConfusion hc
    | some col =>
      rw [hg] at hc
      have hcb : (!(List.filterMap id col.values).isEmpty) = true := hc
      have hne : List.filterMap id col.values ≠ [] := by
        intro he
        rw [he] at hcb
        simp at hcb
      obtain ⟨M, hm⟩ : ∃ M, majorityFreq col = some M := by
        dsimp only [majorityFreq]
        rw [if_neg hne]
        exact ⟨_, rfl⟩
      have hstep : underRepStep ds t acc c =
          .ok (if t < ratDiv M ds.features.nrows then acc ++ [c] else acc) := by
        dsimp only [underRepStep]
        rw [hg]
        dsimp only
        rw [hm]
      have hratio : majorityRatioOf ds c = ratDiv M ds.features.nrows := by
        dsimp only [majorityRatioOf]
        rw [hg]
        dsimp only
        rw [hm]
        rfl
      rw [hstep, except_ok_bind]
      rw [ih _ (fun c2 hc2 => h c2 (List.mem_cons_of_mem _ hc2))]
      rw [List.filter_cons]
      simp only [hratio]
      by_cases hlt : t < ratDiv M ds.features.nrows
      · rw [if_pos hlt, if_pos (by exact decide_eq_true hlt)]
        rw [List.append_assoc, List.singleton_append]
      · rw [if_neg hlt, if_neg (by simpa using hlt)]

/-- C8: `under_represented_features` returns exactly the cached categorical
columns whose most frequent category count, divided by the working-table row
count, strictly exceeds the threshold — provided every categorical column has
at least one observed value, so that the majority count is defined. -/
theorem under_represented_features_spec (ds : Dataset) (t : ℚ)
    (h : ∀ c ∈ ds.meta.categorical, hasObservedValue ds c = true) :
    ds.under_represented_features t =
      .ok (ds.meta.categorical.filter (fun c => decide (t < majorityRatioOf ds c))) := by
  have hfold := underRep_fold_spec ds t ds.meta.categorical [] h
  simpa [Dataset.under_represented_features] using hfold

/-- A categorical column whose majority category occupies 99 of 100 rows. -/
def majCol : Column :=
  ⟨"maj", Dtype.object, (List.replicate 99 (some (Val.str "x"))) ++ [some (Val.str "z")]⟩

/-- A categorical column with a 60/40 split over 100 rows. -/
def balCol : Column :=
  ⟨"bal", Dtype.object,
    (List.replicate 60 (some (Val.str "u"))) ++ (List.replicate 40 (some (Val.str "v")))⟩

/-- The 100-row dataset holding the two columns above. -/
def dsUR : Dataset := Dataset.init ⟨100, [majCol, balCol]⟩

set_option maxRecDepth 100000 in
/-- Witness for C8, realizing the specification scenario: at threshold 0.98
the 99%-majority column is returned and the 60/40 column is not. -/
theorem under_represented_features_spec_witness :
    dsUR.under_represented_features (mkRat 98 100) = .ok ["maj"] := by
  rw [under_represented_features_spec dsUR (mkRat 98 100) (by decide)]
  decide

/-!
C1 — the meta mapping rebuilt after every mutating operation partitions the
working-table columns.
-/

/-- The partition property of a freshly computed meta mapping. -/
theorem computeMeta_partition (d f : DataFrame) (t : Option Column)
    (hnd : f.names.Nodup) :
    (∀ c, c ∈ f.names ↔
      c ∈ (computeMeta d f t).numerical ∨ c ∈ (computeMeta d f t).categorical) ∧
    (∀ c, c ∈ (computeMeta d f t).numerical → c ∉ (computeMeta d f t).categorical) ∧
    (∀ col ∈ f.cols, (col.name ∈ (computeMeta d f t).categorical ↔ col.dtype = Dtype.object)) ∧
    (∀ col ∈ f.cols, (col.name ∈ (computeMeta d f t).numerical ↔ col.dtype ≠ Dtype.object)) := by
  have hnd2 : (f.cols.map (fun c => c.name)).Nodup := hnd
  have hinj : ∀ x ∈ f.cols, ∀ y ∈ f.cols, x.name = y.name → x = y := by
    intro x hx y hy hxy
    exact List.inj_on_of_nodup_map hnd2 hx hy hxy
  refine ⟨?_, ?_, ?_, ?_⟩
  · intro c
    simp only [computeMeta, DataFrame.names, List.mem_map, List.mem_filter,
      decide_eq_true_eq]
    constructor
    · rintro ⟨col, hcol, rfl⟩
      by_cases hd : col.dtype = Dtype.object
      · exact Or.inr ⟨col, ⟨hcol, hd⟩, rfl⟩
      · exact Or.inl ⟨col, ⟨hcol, hd⟩, rfl⟩
    · rintro (⟨col, ⟨hcol, -⟩, rfl⟩ | ⟨col, ⟨hcol, -⟩, rfl⟩) <;> exact ⟨col, hcol, rfl⟩
  · intro c hn hc
    simp only [computeMeta, List.mem_map, List.mem_filter, decide_eq_true_eq] at hn hc
    obtain ⟨col1, ⟨hm1, hd1⟩, he1⟩ := hn
    obtain ⟨col2, ⟨hm2, hd2⟩, he2⟩ := hc
    have he : col1 = col2 := hinj col1 hm1 col2 hm2 (he1.trans he2.symm)
    exact hd1 (he ▸ hd2)
  · intro col hcol
    simp only [computeMeta, List.mem_map, List.mem_filter, decide_eq_true_eq]
    constructor
    · rintro ⟨col2, ⟨hm2, hd2⟩, he2⟩
      have he : col2 = col := hinj col2 hm2 col hcol he2
      exact he ▸ hd2
    · intro hd
      exact ⟨col, ⟨hcol, hd⟩, rfl⟩
  · intro col hcol
    simp only [computeMeta, List.mem_map, List.mem_filter, decide_eq_true_eq]
    constructor
    · rintro ⟨col2, ⟨hm2, hd2⟩, he2⟩
      have he : col2 = col := hinj col2 hm2 col hcol he2
      exact he ▸ hd2
    · intro hd
      exact ⟨col, ⟨hcol, hd⟩, rfl⟩

/-- `metainfo` establishes the meta-current state. -/
theorem metaCurrent_metainfo (ds : Dataset) : MetaCurrent (Dataset.metainfo ds) := rfl

/-- Inverting `Except.map` on a successful result. -/
theorem exceptMap_ok {ε α β : Type} {g : α → β} {e : Except ε α} {b : β}
    (h : e.map g = .ok b) : ∃ a, e = .ok a ∧ b = g a := by
  cases e with
  | ok a =>
    refine ⟨a, rfl, ?_⟩
    have h2 : Except.ok (g a) = Except.ok b := h
    exact (Except.ok.inj h2).symm
  | error err => exact Except.noConfusion h

/-- `set_target` leaves meta current. -/
theorem metaCurrent_set_target {ds ds' : Dataset} {n : String}
    (h : ds.set_target n = .ok ds') : MetaCurrent ds' := by
  unfold Dataset.set_target at h
  repeat' first
  | exact Except.noConfusion h
  | exact (Except.ok.inj h) ▸ metaCurrent_metainfo _
  | split at h

/-- `scale` leaves meta current. -/
theorem metaCurrent_scale {ds ds' : Dataset} {tag : String}
    {o : Column → List (Option Val)}
    (h : ds.scale tag o = .ok ds') : MetaCurrent ds' := by
  unfold Dataset.scale at h
  repeat' first
  | exact Except.noConfusion h
  | exact (Except.ok.inj h) ▸ metaCurrent_metainfo _
  | split at h

/-- `ensure_normality` leaves meta current. -/
theorem metaCurrent_ensure_normality {ds ds' : Dataset} {tag : String}
    {o : Column → List (Option Val)}
    (h : ds.ensure_normality tag o = .ok ds') : MetaCurrent ds' := by
  unfold Dataset.ensure_normality at h
  repeat' first
  | exact Except.noConfusion h
  | exact (Except.ok.inj h) ▸ metaCurrent_metainfo _
  | split at h

/-- `onehot_encode` leaves meta current. -/
theorem metaCurrent_onehot {ds ds' : Dataset}
    (h : ds.onehot_encode = .ok ds') : MetaCurrent ds' := by
  unfold Dataset.onehot_encode at h
  split at h
  · exact Except.noConfusion h
  · obtain ⟨df, -, hds⟩ := exceptMap_ok h
    rw [hds]
    exact metaCurrent_metainfo _

/-- `add_column` preserves a current meta (it recomputes unless it skips the
insertion entirely). -/
theorem metaCurrent_add_column {ds : Dataset} {s : Column} (hm : MetaCurrent ds) :
    MetaCurrent (ds.add_column s) := by
  unfold Dataset.add_column
  split
  · exact hm
  · exact metaCurrent_metainfo _

/-- `drop_columns` leaves meta current. -/
theorem metaCurrent_drop_columns {ds ds' : Dataset} {l : List String}
    (h : ds.drop_columns l = .ok ds') : MetaCurrent ds' := by
  unfold Dataset.drop_columns at h
  obtain ⟨df, -, hds⟩ := exceptMap_ok h
  rw [hds]
  exact metaCurrent_metainfo _

/-- `keep_columns` leaves meta current. -/
theorem metaCurrent_keep_columns {ds ds' : Dataset} {l : List String}
    (h : ds.keep_columns l = .ok ds') : MetaCurrent ds' := by
  unfold Dataset.keep_columns at h
  exact metaCurrent_drop_columns h

/-- `aggregate` leaves meta current. -/
theorem metaCurrent_aggregate {ds ds' : Dataset} {l : List String} {n : String}
    {op : List Column → Column} {d : Bool}
    (h : ds.aggregate l n op d = .ok ds') : MetaCurrent ds' := by
  dsimp only [Dataset.aggregate] at h
  split at h
  · split at h
    · exact metaCurrent_drop_columns h
    · exact (Except.ok.inj h) ▸ metaCurrent_metainfo _
  · exact Except.noConfusion h

/-- `drop_samples` leaves meta current. -/
theorem metaCurrent_drop_samples {ds ds' : Dataset} {idx : List Nat}
    (h : ds.drop_samples idx = .ok ds') : MetaCurrent ds' := by
  unfold Dataset.drop_samples at h
  split at h
  · exact (Except.ok.inj h) ▸ metaCurrent_metainfo _
  · exact Except.noConfusion h

/-- `replace_na` leaves meta current. -/
theorem metaCurrent_replace_na {ds ds' : Dataset} {c : List String ⊕ String} {v : Val}
    (h : ds.replace_na c v = .ok ds') : MetaCurrent ds' := by
  cases c with
  | inl cols =>
    simp only [Dataset.replace_na] at h
    obtain ⟨df, -, hds⟩ := exceptMap_ok h
    rw [hds]
    exact metaCurrent_metainfo _
  | inr cc =>
    simp only [Dataset.replace_na] at h
    split at h
    · exact (Except.ok.inj h) ▸ metaCurrent_metainfo _
    · exact Except.noConfusion h

/-- Every mutating operation, applied to a state with current meta, leaves
meta current when it returns. -/
theorem metaCurrent_apply {op : MutOp} {ds ds' : Dataset}
    (hm : MetaCurrent ds) (h : op.apply ds = .ok ds') : MetaCurrent ds' := by
  cases op with
  | setTargetOp n => exact metaCurrent_set_target h
  | scaleOp t o => exact metaCurrent_scale h
  | ensureNormalityOp t o => exact metaCurrent_ensure_normality h
  | onehotEncodeOp => exact metaCurrent_onehot h
  | addColumnOp s => exact (Except.ok.inj h) ▸ metaCurrent_add_column hm
  | dropColumnsOp l => exact metaCurrent_drop_columns h
  | keepColumnsOp l => exact metaCurrent_keep_columns h
  | aggregateOp l n op2 d => exact metaCurrent_aggregate h
  | dropSamplesOp idx => exact metaCurrent_drop_samples h
  | replaceNaOp c v => exact metaCurrent_replace_na h

/-- C1: after every mutating operation (run from a state whose meta is
current, and whose resulting working-table column names are distinct, as
pandas tables have), the meta mapping rebuilt by `metainfo` partitions the
working-table columns: `numerical` and `categorical` are disjoint, their
union is the full column set, and a column is categorical iff its dtype is
`object`, numerical otherwise. -/
theorem meta_partition_after_mutation (op : MutOp) (ds ds' : Dataset)
    (hm : MetaCurrent ds) (happ : op.apply ds = .ok ds')
    (hnd : ds'.features.names.Nodup) :
    (∀ c, c ∈ ds'.features.names ↔ c ∈ ds'.meta.numerical ∨ c ∈ ds'.meta.categorical) ∧
    (∀ c, c ∈ ds'.meta.numerical → c ∉ ds'.meta.categorical) ∧
    (∀ col ∈ ds'.features.cols, (col.name ∈ ds'.meta.categorical ↔ col.dtype = Dtype.object)) ∧
    (∀ col ∈ ds'.features.cols, (col.name ∈ ds'.meta.numerical ↔ col.dtype ≠ Dtype.object)) := by
  have hc := metaCurrent_apply hm happ
  rw [MetaCurrent] at hc
  rw [hc]
  exact computeMeta_partition ds'.data ds'.features ds'.target hnd

/-- Witness for C1: the `drop_samples` operation on the example dataset. -/
theorem meta_partition_after_mutation_witness :
    (∀ c, c ∈ (Dataset.metainfo exDS).features.names ↔
        c ∈ (Dataset.metainfo exDS).meta.numerical ∨
        c ∈ (Dataset.metainfo exDS).meta.categorical) ∧
    (∀ c, c ∈ (Dataset.metainfo exDS).meta.numerical →
        c ∉ (Dataset.metainfo exDS).meta.categorical) ∧
    (∀ col ∈ (Dataset.metainfo exDS).features.cols,
        (col.name ∈ (Dataset.metainfo exDS).meta.categorical ↔ col.dtype = Dtype.object)) ∧
    (∀ col ∈ (Dataset.metainfo exDS).features.cols,
        (col.name ∈ (Dataset.metainfo exDS).meta.numerical ↔ col.dtype ≠ Dtype.object)) :=
  meta_partition_after_mutation (MutOp.dropSamplesOp []) exDS (Dataset.metainfo exDS)
    rfl (by decide) (by decide)

/-!
C10 — `onehot_encode` empties the categorical view and preserves the
numerical columns.
-/

/-- A successful `getCol?` returns a member column bearing the looked-up
name. -/
theorem getCol?_some_name {f : DataFrame} {n : String} {c : Column}
    (h : f.getCol? n = some c) : c ∈ f.cols ∧ c.name = n := by
  refine ⟨List.mem_of_find?_eq_some h, ?_⟩
  have hp := List.find?_some h
  simpa using hp

/-- `getCol?` succeeds exactly on the column names of the frame. -/
theorem getCol?_isSome_iff (f : DataFrame) (n : String) :
    (f.getCol? n).isSome = true ↔ n ∈ f.names := by
  unfold DataFrame.getCol? DataFrame.names
  rw [List.find?_isSome]
  constructor
  · rintro ⟨c, hc, hp⟩
    have he : c.name = n := by simpa using hp
    exact List.mem_map.mpr ⟨c, hc, he⟩
  · intro h
    obtain ⟨c, hc, he⟩ := List.mem_map.mp h
    exact ⟨c, hc, by simp [he]⟩

/-- Every dummy column produced by `getDummies` is a `uint8` 0/1 indicator. -/
theorem getDummies_shape (pfx : String) (c : Column) :
    ∀ col ∈ getDummies pfx c, col.dtype = Dtype.uint8 ∧
      ∀ v ∈ col.values, v = some (Val.num 0) ∨ v = some (Val.num 1) := by
  intro col hcol
  obtain ⟨w, hw, rfl⟩ := List.mem_map.mp hcol
  refine ⟨rfl, ?_⟩
  intro v hv
  obtain ⟨x, hx, rfl⟩ := List.mem_map.mp hv
  by_cases hxx : x = some w
  · rw [if_pos hxx]
    exact Or.inr rfl
  · rw [if_neg hxx]
    exact Or.inl rfl

/-- The `onehot_encode` fold only appends dummy columns: the result keeps the
starting columns as a prefix, followed by `uint8` 0/1 indicators. -/
theorem onehotFold_shape (ds : Dataset) :
    ∀ (cats : List String) (df0 df1 : DataFrame),
      cats.foldlM (onehotStep ds) df0 = .ok df1 →
      df1.nrows = df0.nrows ∧
      ∃ extra, df1.cols = df0.cols ++ extra ∧
        ∀ col ∈ extra, col.dtype = Dtype.uint8 ∧
          ∀ v ∈ col.values, v = some (Val.num 0) ∨ v = some (Val.num 1) := by
  intro cats
  induction cats with
  | nil =>
    intro df0 df1 h
    have h2 : df0 = df1 := Except.ok.inj h
    subst h2
    refine ⟨rfl, [], by simp, ?_⟩
    intro col hcol
    exact absurd hcol (List.not_mem_nil col)
  | cons c cats ih =>
    intro df0 df1 h
    rw [List.foldlM_cons] at h
    cases hg : ds.features.getCol? c with
    | none =>
      have hstep : onehotStep ds df0 c = .error PyErr.keyError := by
        unfold onehotStep
        rw [hg]
      rw [hstep] at h
      exact Except.noConfusion h
    | some col =>
      have hstep : onehotStep ds df0 c =
          .ok { df0 with cols := df0.cols ++ getDummies c col } := by
        unfold onehotStep
        rw [hg]
      rw [hstep, except_ok_bind] at h
      obtain ⟨hnr, extra, hcols, hprop⟩ := ih _ _ h
      refine ⟨hnr, getDummies c col ++ extra, ?_, ?_⟩
      · rw [hcols]
        simp [List.append_assoc]
      · intro col2 hcol2
        rcases List.mem_append.mp hcol2 with h2 | h2
        · exact getDummies_shape c col col2 h2
        · exact hprop col2 h2

/-- Looking a listed name up in the sub-frame `ns.filterMap getCol?` agrees
with looking it up in the original frame. -/
theorem find?_filterMap_getCol? (f : DataFrame) :
    ∀ (ns : List String) (n : String), n ∈ ns →
      (∀ m ∈ ns, m ∈ f.names) →
      List.find? (fun c => c.name = n) (ns.filterMap (fun m => f.getCol? m)) =
        f.getCol? n := by
  intro ns
  induction ns with
  | nil =>
    intro n hn _
    exact absurd hn (List.not_mem_nil n)
  | cons m rest ih =>
    intro n hn hpres
    have hmp : m ∈ f.names := hpres m (List.mem_cons_self _ _)
    obtain ⟨colm, hcolm⟩ : ∃ colm, f.getCol? m = some colm :=
      Option.isSome_iff_exists.mp ((getCol?_isSome_iff f m).mpr hmp)
    have hname : colm.name = m := (getCol?_some_name hcolm).2
    rw [List.filterMap_cons_some hcolm]
    by_cases hmn : m = n
    · subst hmn
      rw [List.find?_cons_of_pos _ (by simp [hname])]
      exact hcolm.symm
    · rw [List.find?_cons_of_neg _ (by simp [hname]; exact hmn)]
      have hn2 : n ∈ rest := by
        rcases List.mem_cons.mp hn with h2 | h2
        · exact absurd h2.symm hmn
        · exact h2
      exact ih n hn2 (fun m2 hm2 => hpres m2 (List.mem_cons_of_mem _ hm2))

/-- C10: after a successful `onehot_encode` (from a state with current meta
and distinct column names), the rebuilt categorical view is empty; every
column of the new working table is a previous numerical column or a `uint8`
0/1 dummy indicator; the previous numerical columns are preserved with their
values unchanged; and the `stepwise_selection` precondition is established. -/
theorem onehot_encode_spec (ds ds' : Dataset)
    (hm : MetaCurrent ds) (hnd : ds.features.names.Nodup)
    (h : ds.onehot_encode = .ok ds') :
    ds'.meta.categorical = [] ∧
    (∀ col ∈ ds'.features.cols,
        (col ∈ ds.features.cols ∧ col.name ∈ ds.meta.numerical) ∨
        (col.dtype = Dtype.uint8 ∧
          ∀ v ∈ col.values, v = some (Val.num 0) ∨ v = some (Val.num 1))) ∧
    (∀ n ∈ ds.meta.numerical, ds'.features.getCol? n = ds.features.getCol? n) ∧
    (∀ pval init tin tout fuel,
        (ds'.stepwise_selection pval init tin tout fuel).isOk = true) := by
  have hnd2 : (ds.features.cols.map (fun c => c.name)).Nodup := hnd
  have hinj : ∀ x ∈ ds.features.cols, ∀ y ∈ ds.features.cols, x.name = y.name → x = y := by
    intro x hx y hy hxy
    exact List.inj_on_of_nodup_map hnd2 hx hy hxy
  -- every cached numerical name is a working-table column name
  have hnum_mem : ∀ m ∈ ds.meta.numerical, m ∈ ds.features.names := by
    intro m hmem
    rw [hm] at hmem
    simp only [computeMeta, List.mem_map, List.mem_filter, decide_eq_true_eq] at hmem
    obtain ⟨col, ⟨hcol, -⟩, he⟩ := hmem
    exact List.mem_map.mpr ⟨col, hcol, he⟩
  -- a working-table column named by the cached numerical list is non-object
  have hnum_dtype : ∀ col ∈ ds.features.cols, col.name ∈ ds.meta.numerical →
      col.dtype ≠ Dtype.object := by
    intro col hcol hmem
    rw [hm] at hmem
    simp only [computeMeta, List.mem_map, List.mem_filter, decide_eq_true_eq] at hmem
    obtain ⟨col2, ⟨hcol2, hd2⟩, he2⟩ := hmem
    have he : col2 = col := hinj col2 hcol2 col hcol he2
    exact he ▸ hd2
  unfold Dataset.onehot_encode at h
  cases hloc : ds.features.locCols ds.meta.numerical with
  | error e =>
    rw [hloc] at h
    exact Except.noConfusion h
  | ok base =>
    rw [hloc] at h
    obtain ⟨newDf, hfold, hds⟩ := exceptMap_ok h
    -- shape of the base sub-frame
    have hbase : base =
        ⟨ds.features.nrows, ds.meta.numerical.filterMap (fun n => ds.features.getCol? n)⟩ := by
      unfold DataFrame.locCols at hloc
      split at hloc
      · exact (Except.ok.inj hloc).symm
      · exact Except.noConfusion hloc
    have hbase_cols : ∀ col ∈ base.cols, col ∈ ds.features.cols ∧
        col.name ∈ ds.meta.numerical := by
      intro col hcol
      rw [hbase] at hcol
      obtain ⟨n, hn, hgc⟩ := List.mem_filterMap.mp hcol
      obtain ⟨hin, hname⟩ := getCol?_some_name hgc
      exact ⟨hin, hname ▸ hn⟩
    obtain ⟨hnr, extra, hcols, hextra⟩ := onehotFold_shape ds ds.meta.categorical base newDf hfold
    -- every column of the new frame is non-object
    have hnew_nonobj : ∀ col ∈ newDf.cols, col.dtype ≠ Dtype.object := by
      intro col hcol
      rw [hcols] at hcol
      rcases List.mem_append.mp hcol with h2 | h2
      · obtain ⟨hin, hname⟩ := hbase_cols col h2
        exact hnum_dtype col hin hname
      · intro hobj
        have := (hextra col h2).1
        rw [this] at hobj
        exact Dtype.noConfusion hobj
    have hcat_nil : ds'.meta.categorical = [] := by
      rw [hds]
      show ((newDf.cols.filter (fun c => c.dtype = Dtype.object)).map (fun c => c.name)) = []
      rw [List.filter_eq_nil_iff.mpr (by
        intro col hcol
        simpa using hnew_nonobj col hcol)]
      rfl
    refine ⟨hcat_nil, ?_, ?_, ?_⟩
    · intro col hcol
      rw [hds] at hcol
      have hcol2 : col ∈ newDf.cols := hcol
      rw [hcols] at hcol2
      rcases List.mem_append.mp hcol2 with h2 | h2
      · exact Or.inl (hbase_cols col h2)
      · exact Or.inr (hextra col h2)
    · intro n hn
      rw [hds]
      show newDf.getCol? n = ds.features.getCol? n
      unfold DataFrame.getCol?
      rw [hcols, List.find?_append]
      have hfind : List.find? (fun c => c.name = n) base.cols = ds.features.getCol? n := by
        rw [hbase]
        exact find?_filterMap_getCol? ds.features ds.meta.numerical n hn hnum_mem
      rw [hfind]
      obtain ⟨cn, hcn⟩ : ∃ cn, ds.features.getCol? n = some cn :=
        Option.isSome_iff_exists.mp ((getCol?_isSome_iff ds.features n).mpr (hnum_mem n hn))
      have hcn2 : List.find? (fun c => decide (c.name = n)) ds.features.cols = some cn := hcn
      rw [hcn, hcn2]
      rfl
    · intro pval init tin tout fuel
      unfold Dataset.stepwise_selection
      rw [if_pos hcat_nil]
      rfl

/-- The working table of the example dataset after `onehot_encode`: the
numerical column `a` followed by the dummy expansion of `b`. -/
def exDSohF : DataFrame :=
  ⟨2, [exNum, ⟨"b_u", Dtype.uint8, [some (Val.num 1), some (Val.num 0)]⟩]⟩

/-- The example dataset after `set_target('y')` and `onehot_encode()`. -/
def exDSoh : Dataset := Dataset.metainfo { exDSt with features := exDSohF }

/-- Witness for C10 at the example dataset. -/
theorem onehot_encode_spec_witness :
    exDSoh.meta.categorical = [] ∧
    (∀ col ∈ exDSoh.features.cols,
        (col ∈ exDSt.features.cols ∧ col.name ∈ exDSt.meta.numerical) ∨
        (col.dtype = Dtype.uint8 ∧
          ∀ v ∈ col.values, v = some (Val.num 0) ∨ v = some (Val.num 1))) ∧
    (∀ n ∈ exDSt.meta.numerical, exDSoh.features.getCol? n = exDSt.features.getCol? n) ∧
    (∀ pval init tin tout fuel,
        (exDSoh.stepwise_selection pval init tin tout fuel).isOk = true) :=
  onehot_encode_spec exDSt exDSoh rfl (by decide) (by decide)

end DatasetLib
